import Mathlib

/-!
Verification of the meal filter controller
(`src/components/MealFiltersComponent.tsx`).

The component keeps a locally buffered search string (`localSearch`)
reconciled with an externally owned committed filter object (`filters`),
and translates discrete UI actions (category pick, sort pick, dietary tag
toggle, clear all) into full replacement filter objects emitted through
the `onFiltersChange` callback.  Search edits are committed through a
300 ms debounce timer; external changes to the committed search field
reset the local draft immediately.

We embed the data model and every handler as pure Lean functions, and the
debounce / reset behaviour as a small timed event-trace semantics.
-/

/-- Modelled from the spec: the `MealFilters` interface is declared in the
repository's `types` module, which is not among the provided sources; its
shape is recovered from the spec's data model section and from every field
access in `MealFiltersComponent.tsx` (`search`, `category`, `sort_by`,
`sort_order`, `dietary_tags`, all optional).  Category and sort values are
kept as strings, faithful to the runtime values (the TS casts
`as MealCategory`, `as any`, `as 'asc' | 'desc'` are identities at
runtime); tag identifiers (`tag_id: number`) are modelled as `Nat`. -/
structure MealFilters where
  search : Option String := none
  category : Option String := none
  sort_by : Option String := none
  sort_order : Option String := none
  dietary_tags : Option (List Nat) := none
deriving DecidableEq

/-- JavaScript `x || d` for an optional string `x`: the default is taken
when the value is absent or the empty string (both falsy). -/
def jsOr (o : Option String) (d : String) : String :=
  match o with
  | none => d
  | some s => if s = "" then d else s

/-- JavaScript truthiness of an optional string: `undefined` and `""` are
falsy, every other string is truthy. -/
def truthyStr (o : Option String) : Bool :=
  match o with
  | none => false
  | some s => !(s = "")

/-- The values offered by the category `Select` besides the `"all"`
sentinel (`MealFiltersComponent.tsx`, lines 142-146); per the spec's data
model these are the whole `MealCategory` enumeration. -/
def mealCategories : List String :=
  ["Best for Breakfast", "Best for Lunch", "Best for Dinner", "Best for Snacks"]

/-- JavaScript `String.prototype.trim()`: drop whitespace from both ends
of the string. -/
def jsTrim (s : String) : String :=
  String.mk (((s.data.dropWhile Char.isWhitespace).reverse.dropWhile Char.isWhitespace).reverse)

/-- Body of the debounce timer (`MealFiltersComponent.tsx`, lines 33-38):
trim the draft; if it differs from the committed search (absent read as
`""`), emit the committed state with `search` replaced by the trimmed
draft (`undefined` when the trimmed draft is empty, via `|| undefined`);
otherwise emit nothing. -/
def debounceBody (filters : MealFilters) (localSearch : String) : Option MealFilters :=
  let trimmedSearch := jsTrim localSearch
  if trimmedSearch ≠ jsOr filters.search "" then
    some { filters with search := if trimmedSearch = "" then none else some trimmedSearch }
  else
    none

/-- `handleCategoryChange` (lines 47-52): replace `category`, translating
the `'all'` sentinel to `undefined`. -/
def handleCategoryChange (filters : MealFilters) (category : String) : MealFilters :=
  { filters with category := if category = "all" then none else some category }

/-- `handleSortChange` (lines 54-60): replace both `sort_by` and
`sort_order` with the given pair. -/
def handleSortChange (filters : MealFilters) (sortBy : String) (sortOrder : String) : MealFilters :=
  { filters with sort_by := some sortBy, sort_order := some sortOrder }

/-- The list update inside `handleDietaryTagToggle` (lines 63-66):
`currentTags.includes(tagId) ? currentTags.filter(id => id !== tagId)
: [...currentTags, tagId]`. -/
def toggleTags (currentTags : List Nat) (tagId : Nat) : List Nat :=
  if currentTags.contains tagId then
    currentTags.filter (fun id => id ≠ tagId)
  else
    currentTags ++ [tagId]

/-- `handleDietaryTagToggle` (lines 62-72): toggle membership of `tagId`
in the committed tag list (absent read as `[]`), emitting the committed
state with `dietary_tags` replaced by the new list, or `undefined` when
the new list is empty. -/
def handleDietaryTagToggle (filters : MealFilters) (tagId : Nat) : MealFilters :=
  let currentTags := filters.dietary_tags.getD []
  let newTags := toggleTags currentTags tagId
  { filters with dietary_tags := if newTags.length > 0 then some newTags else none }

/-- `clearAllFilters` (lines 74-76): emit the empty filter object. -/
def clearAllFilters (_ : MealFilters) : MealFilters := {}

/-- Truthiness of `x && x.length > 0` for an optional array `x`:
false when the array is absent, otherwise whether it is non-empty. -/
def truthyTags (o : Option (List Nat)) : Bool :=
  match o with
  | none => false
  | some l => decide (0 < l.length)

/-- `hasActiveFilters` (line 78):
`filters.search || filters.category ||
(filters.dietary_tags && filters.dietary_tags.length > 0)`,
with JavaScript truthiness. -/
def hasActiveFilters (filters : MealFilters) : Bool :=
  truthyStr filters.search || truthyStr filters.category ||
    truthyTags filters.dietary_tags

/-- The sort `Select`'s `onValueChange` (line 159): picking a sort key
calls `handleSortChange(value, filters.sort_order || 'desc')`. -/
def sortKeySelected (filters : MealFilters) (value : String) : MealFilters :=
  handleSortChange filters value (jsOr filters.sort_order "desc")

/-- The sort-direction button's `onClick` (line 172): it calls
`handleSortChange(filters.sort_by || 'created_at',
filters.sort_order === 'asc' ? 'desc' : 'asc')`. -/
def sortDirectionToggled (filters : MealFilters) : MealFilters :=
  handleSortChange filters (jsOr filters.sort_by "created_at")
    (if filters.sort_order = some "asc" then "desc" else "asc")

/-- The debounce delay (line 38): 300 ms. -/
def debounceDelay : Nat := 300

/-- Events the controller reacts to: the user editing the draft search
text (`handleSearchChange`, lines 43-45, via the `Input`'s `onChange`),
or the parent replacing the committed filter object (a new `filters`
prop). -/
inductive UserAction where
  | edit (v : String)
  | external (f : MealFilters)
deriving DecidableEq

/-- Controller state: committed filters (the `filters` prop), the draft
(`localSearch` state, line 24), and the absolute time at which the
currently pending debounce timer fires, if one is pending.  The timer's
closure always captures the current `localSearch` and `filters`, because
the debounce effect (lines 32-41) lists both among its dependencies and
therefore cancels and reschedules the timer whenever either changes. -/
structure CtrlState where
  filters : MealFilters
  localSearch : String
  deadline : Option Nat
deriving DecidableEq

/-- Fire the pending debounce timer if its deadline has been reached at
time `t`: run `debounceBody` on the current state, collecting the
emission (if any), and clear the pending deadline. -/
def fireIfDue (s : CtrlState) (t : Nat) : CtrlState × List MealFilters :=
  match s.deadline with
  | some d =>
    if d ≤ t then
      ({ s with deadline := none },
        match debounceBody s.filters s.localSearch with
        | some f => [f]
        | none => [])
    else (s, [])
  | none => (s, [])

/-- Synchronous effect of a user action at time `t`:
an edit stores the new draft; an external filter replacement runs the
reset effect (lines 27-29): when the committed `search` changed, the
draft is overwritten with `filters.search || ''` at once.  Either way the
debounce effect reruns, cancelling any pending timer and scheduling a
fresh one `debounceDelay` later. -/
def applyAction (s : CtrlState) (t : Nat) (a : UserAction) : CtrlState :=
  match a with
  | UserAction.edit v =>
      { s with localSearch := v, deadline := some (t + debounceDelay) }
  | UserAction.external f =>
      { filters := f
        localSearch := if f.search ≠ s.filters.search then jsOr f.search "" else s.localSearch
        deadline := some (t + debounceDelay) }

/-- Run the controller over a timestamped event trace, then let time pass
until `tEnd`.  At each event time a timer that has become due fires
first; the run returns the final state and the list of all emissions in
order. -/
def runTimed : CtrlState → List (Nat × UserAction) → Nat → CtrlState × List MealFilters
  | s, [], tEnd => fireIfDue s tEnd
  | s, (t, a) :: rest, tEnd =>
    let p := fireIfDue s t
    let q := runTimed (applyAction p.1 t a) rest tEnd
    (q.1, p.2 ++ q.2)

/-- A burst of edits in which each edit arrives strictly before the delay
started by the previous one expires. -/
def EditsWithinWindow : List (Nat × String) → Prop
  | [] => True
  | [_] => True
  | (t₁, _) :: (t₂, v₂) :: rest =>
      t₂ < t₁ + debounceDelay ∧ EditsWithinWindow ((t₂, v₂) :: rest)

/-- Minimality of a committed filter object: an absent field means "no
constraint", so the object never carries an empty-string search nor an
empty tag array. -/
def MinimalFilters (f : MealFilters) : Prop :=
  f.search ≠ some "" ∧ f.dietary_tags ≠ some []

/-! ## Helper lemmas -/

theorem contains_iff_mem (l : List Nat) (a : Nat) : l.contains a = true ↔ a ∈ l := by
  simp [List.contains, List.elem_iff]

theorem toggleTags_not_mem {l : List Nat} {t : Nat} (h : t ∉ l) :
    toggleTags l t = l ++ [t] := by
  have hc : ¬ (l.contains t = true) := fun hcon => h ((contains_iff_mem l t).mp hcon)
  unfold toggleTags
  rw [if_neg hc]

theorem toggleTags_mem {l : List Nat} {t : Nat} (h : t ∈ l) :
    toggleTags l t = l.filter (fun id => id ≠ t) := by
  have hc : l.contains t = true := (contains_iff_mem l t).mpr h
  unfold toggleTags
  rw [if_pos hc]

theorem not_mem_filter_ne (l : List Nat) (t : Nat) :
    t ∉ l.filter (fun id => id ≠ t) := by
  intro hmem
  simp [List.mem_filter] at hmem

theorem double_toggle_eq (l : List Nat) (t : Nat) :
    toggleTags (toggleTags l t) t =
      if t ∈ l then l.filter (fun id => id ≠ t) ++ [t] else l := by
  by_cases h : t ∈ l
  · rw [if_pos h, toggleTags_mem h, toggleTags_not_mem (not_mem_filter_ne l t)]
  · rw [if_neg h, toggleTags_not_mem h,
      toggleTags_mem (by simp : t ∈ l ++ [t])]
    rw [List.filter_append]
    have h₁ : l.filter (fun id => id ≠ t) = l :=
      List.filter_eq_self.mpr (fun a ha => by
        simp only [decide_eq_true_eq]
        exact fun he => h (he ▸ ha))
    have h₂ : [t].filter (fun id => id ≠ t) = [] := by simp
    rw [h₁, h₂, List.append_nil]

theorem filter_concat_eq_iff {s : List Nat} {t : Nat} :
    s.filter (fun id => id ≠ t) ++ [t] = s ↔
      (s.count t = 1 ∧ s.getLast? = some t) := by
  constructor
  · intro he
    refine ⟨?_, ?_⟩
    · have h0 : (s.filter (fun id => id ≠ t)).count t = 0 :=
        List.count_eq_zero.mpr (not_mem_filter_ne s t)
      calc s.count t
          = (s.filter (fun id => id ≠ t) ++ [t]).count t := by rw [he]
        _ = (s.filter (fun id => id ≠ t)).count t + ([t] : List Nat).count t := by
              rw [List.count_append]
        _ = 1 := by rw [h0, List.count_singleton_self]
    · rw [← he]
      exact List.getLast?_concat _
  · rintro ⟨hcount, hlast⟩
    obtain ⟨ys, rfl⟩ := List.getLast?_eq_some_iff.mp hlast
    have hy0 : ys.count t = 0 := by
      rw [List.count_append, List.count_singleton_self] at hcount
      omega
    have hy : t ∉ ys := List.count_eq_zero.mp hy0
    have h₁ : ys.filter (fun id => id ≠ t) = ys :=
      List.filter_eq_self.mpr (fun a ha => by
        simp only [decide_eq_true_eq]
        exact fun he => hy (he ▸ ha))
    rw [List.filter_append, h₁]
    simp

/-! ## Claim theorems -/

/-- C7: for every committed filter object and category value, the
category-change handler emits the committed object with `category`
replaced by the value, except that the `"all"` sentinel is translated to
an absent category; every other field is unchanged. -/
theorem category_change_spec (F : MealFilters) (c : String) :
    (handleCategoryChange F c).category = (if c = "all" then none else some c) ∧
    (handleCategoryChange F c).search = F.search ∧
    (handleCategoryChange F c).sort_by = F.sort_by ∧
    (handleCategoryChange F c).sort_order = F.sort_order ∧
    (handleCategoryChange F c).dietary_tags = F.dietary_tags :=
  ⟨rfl, rfl, rfl, rfl, rfl⟩

/-- C8: the sort-change handler replaces exactly the sort key and sort
direction with the given pair, leaving every other field unchanged; the
sort `Select` passes the picked key with the direction held at its
current value defaulting to `"desc"`; the direction button holds the key
at its current value defaulting to `"created_at"` and flips the
direction between `"asc"` and `"desc"`. -/
theorem sort_change_spec (F : MealFilters) (k d v : String) :
    (handleSortChange F k d).sort_by = some k ∧
    (handleSortChange F k d).sort_order = some d ∧
    (handleSortChange F k d).search = F.search ∧
    (handleSortChange F k d).category = F.category ∧
    (handleSortChange F k d).dietary_tags = F.dietary_tags ∧
    (sortKeySelected F v).sort_by = some v ∧
    (sortKeySelected F v).sort_order = some (jsOr F.sort_order "desc") ∧
    (sortKeySelected F v).search = F.search ∧
    (sortKeySelected F v).category = F.category ∧
    (sortKeySelected F v).dietary_tags = F.dietary_tags ∧
    (sortDirectionToggled F).sort_by = some (jsOr F.sort_by "created_at") ∧
    (sortDirectionToggled F).sort_order =
      some (if F.sort_order = some "asc" then "desc" else "asc") ∧
    (sortDirectionToggled F).search = F.search ∧
    (sortDirectionToggled F).category = F.category ∧
    (sortDirectionToggled F).dietary_tags = F.dietary_tags :=
  ⟨rfl, rfl, rfl, rfl, rfl, rfl, rfl, rfl, rfl, rfl, rfl, rfl, rfl, rfl, rfl⟩

/-- C9: the clear-all handler emits the empty filter object, with every
field absent, regardless of the committed object. -/
theorem clear_all_filters_spec (F : MealFilters) :
    clearAllFilters F = ({} : MealFilters) ∧
    (clearAllFilters F).search = none ∧
    (clearAllFilters F).category = none ∧
    (clearAllFilters F).sort_by = none ∧
    (clearAllFilters F).sort_order = none ∧
    (clearAllFilters F).dietary_tags = none :=
  ⟨rfl, rfl, rfl, rfl, rfl, rfl⟩

/-- C5: for a filter object whose category, when present, comes from the
category enumeration, the active-filter boolean is true exactly when the
search is present and non-empty, or the category is present, or the tag
list is present and non-empty; in particular it is false on the empty
filter object. -/
theorem has_active_filters_iff (F : MealFilters)
    (hCat : ∀ c, F.category = some c → c ∈ mealCategories) :
    hasActiveFilters F = true ↔
      ((∃ s, F.search = some s ∧ s ≠ "") ∨ F.category ≠ none ∨
        (∃ l, F.dietary_tags = some l ∧ l ≠ [])) := by
  have hs : truthyStr F.search = true ↔ (∃ s, F.search = some s ∧ s ≠ "") := by
    cases h : F.search with
    | none => simp [truthyStr]
    | some s => by_cases hse : s = "" <;> simp [truthyStr, hse]
  have hc : truthyStr F.category = true ↔ F.category ≠ none := by
    cases h : F.category with
    | none => simp [truthyStr]
    | some c =>
        have hmem : c ∈ mealCategories := hCat c h
        have hne : c ≠ "" := by
          intro he
          rw [he] at hmem
          exact absurd hmem (by decide)
        simp [truthyStr, hne]
  have ht : truthyTags F.dietary_tags = true ↔
      (∃ l, F.dietary_tags = some l ∧ l ≠ []) := by
    cases h : F.dietary_tags with
    | none => simp [truthyTags]
    | some l => cases l <;> simp [truthyTags]
  simp only [hasActiveFilters, Bool.or_eq_true]
  rw [hs, hc, ht, or_assoc]

theorem has_active_filters_iff_witness :
    hasActiveFilters { search := some "x" } = true := by
  have h := has_active_filters_iff { search := some "x" }
    (fun c hc => by simp at hc)
  exact h.mpr (Or.inl ⟨"x", rfl, by decide⟩)

/-- C4: the dietary-tag toggle keeps every non-tag field unchanged;
its tag field is computed by membership in the committed tag list
(absent read as empty): a present tag is removed (absent result if the
removal empties the list), an absent tag is appended at the end; the
relative order of the other tags is preserved; and toggling two fresh
tags in sequence appends them in toggle order. -/
theorem dietary_tag_toggle_spec (F : MealFilters) (t : Nat) :
    (handleDietaryTagToggle F t).search = F.search ∧
    (handleDietaryTagToggle F t).category = F.category ∧
    (handleDietaryTagToggle F t).sort_by = F.sort_by ∧
    (handleDietaryTagToggle F t).sort_order = F.sort_order ∧
    (handleDietaryTagToggle F t).dietary_tags =
      (if t ∈ F.dietary_tags.getD [] then
        (if (F.dietary_tags.getD []).filter (fun id => id ≠ t) = [] then none
         else some ((F.dietary_tags.getD []).filter (fun id => id ≠ t)))
       else some (F.dietary_tags.getD [] ++ [t])) ∧
    ((handleDietaryTagToggle F t).dietary_tags.getD []).filter (fun id => id ≠ t) =
      (F.dietary_tags.getD []).filter (fun id => id ≠ t) ∧
    (∀ u, t ∉ F.dietary_tags.getD [] → u ∉ F.dietary_tags.getD [] → u ≠ t →
      (handleDietaryTagToggle (handleDietaryTagToggle F t) u).dietary_tags =
        some (F.dietary_tags.getD [] ++ [t, u])) := by
  have tags_eq : (handleDietaryTagToggle F t).dietary_tags =
      (if t ∈ F.dietary_tags.getD [] then
        (if (F.dietary_tags.getD []).filter (fun id => id ≠ t) = [] then none
         else some ((F.dietary_tags.getD []).filter (fun id => id ≠ t)))
       else some (F.dietary_tags.getD [] ++ [t])) := by
    by_cases h : t ∈ F.dietary_tags.getD []
    · rw [if_pos h]
      show (if (toggleTags (F.dietary_tags.getD []) t).length > 0
          then some (toggleTags (F.dietary_tags.getD []) t) else none) = _
      rw [toggleTags_mem h]
      by_cases hf : (F.dietary_tags.getD []).filter (fun id => id ≠ t) = []
      · rw [if_pos hf, hf]
        simp
      · rw [if_neg hf, if_pos (List.length_pos.mpr hf)]
    · rw [if_neg h]
      show (if (toggleTags (F.dietary_tags.getD []) t).length > 0
          then some (toggleTags (F.dietary_tags.getD []) t) else none) = _
      rw [toggleTags_not_mem h, if_pos (by simp)]
  refine ⟨rfl, rfl, rfl, rfl, tags_eq, ?_, ?_⟩
  · rw [tags_eq]
    by_cases h : t ∈ F.dietary_tags.getD []
    · rw [if_pos h]
      by_cases hf : (F.dietary_tags.getD []).filter (fun id => id ≠ t) = []
      · rw [if_pos hf, hf]
        simp
      · rw [if_neg hf]
        simp [List.filter_filter]
    · rw [if_neg h]
      have h₁ : (F.dietary_tags.getD []).filter (fun id => id ≠ t) =
          F.dietary_tags.getD [] :=
        List.filter_eq_self.mpr (fun a ha => by
          simp only [decide_eq_true_eq]
          exact fun he => h (he ▸ ha))
      simp [List.filter_append, h₁]
  · intro u ht hu hut
    have e₁ : (handleDietaryTagToggle F t).dietary_tags =
        some (F.dietary_tags.getD [] ++ [t]) := by
      rw [tags_eq, if_neg ht]
    have hu₂ : u ∉ (handleDietaryTagToggle F t).dietary_tags.getD [] := by
      rw [e₁]
      simp only [Option.getD_some, List.mem_append, List.mem_singleton]
      rintro (h₁ | h₂)
      · exact hu h₁
      · exact hut h₂
    show (if (toggleTags ((handleDietaryTagToggle F t).dietary_tags.getD []) u).length > 0
        then some (toggleTags ((handleDietaryTagToggle F t).dietary_tags.getD []) u)
        else none) = _
    rw [toggleTags_not_mem hu₂, if_pos (by simp), e₁]
    simp

/-- C6: every operation of the controller maps a minimal committed
filter object (no empty-string search, no empty tag array) to minimal
emissions only: the debounced search commit, the category change, the
sort change, the tag toggle and the clear-all all preserve minimality. -/
theorem operations_preserve_minimality (F : MealFilters) (hF : MinimalFilters F) :
    (∀ ls f₂, debounceBody F ls = some f₂ → MinimalFilters f₂) ∧
    (∀ c, MinimalFilters (handleCategoryChange F c)) ∧
    (∀ k d, MinimalFilters (handleSortChange F k d)) ∧
    (∀ t, MinimalFilters (handleDietaryTagToggle F t)) ∧
    MinimalFilters (clearAllFilters F) := by
  obtain ⟨hs, hd⟩ := hF
  refine ⟨?_, ?_, ?_, ?_, ?_⟩
  · intro ls f₂ he
    unfold debounceBody at he
    by_cases hne : jsTrim ls ≠ jsOr F.search ""
    · rw [if_pos hne] at he
      obtain rfl := Option.some.inj he
      constructor
      · by_cases hz : jsTrim ls = ""
        · simp [hz]
        · simp [hz]
      · exact hd
    · rw [if_neg hne] at he
      exact absurd he (by simp)
  · intro c
    exact ⟨hs, hd⟩
  · intro k d
    exact ⟨hs, hd⟩
  · intro t
    refine ⟨hs, ?_⟩
    show (if (toggleTags (F.dietary_tags.getD []) t).length > 0
        then some (toggleTags (F.dietary_tags.getD []) t) else none) ≠ some []
    by_cases hl : (toggleTags (F.dietary_tags.getD []) t).length > 0
    · rw [if_pos hl]
      intro he
      rw [Option.some.inj he] at hl
      simp at hl
    · rw [if_neg hl]
      simp
  · exact ⟨by simp [clearAllFilters], by simp [clearAllFilters]⟩

theorem operations_preserve_minimality_witness :
    MinimalFilters (handleDietaryTagToggle { dietary_tags := some [1] } 1) := by
  have h := operations_preserve_minimality { dietary_tags := some [1] }
    ⟨by simp, by simp⟩
  exact h.2.2.2.1 1

theorem dietary_tag_toggle_spec_witness :
    (handleDietaryTagToggle { dietary_tags := some [1, 2] } 2).dietary_tags = some [1] := by
  have h := dietary_tag_toggle_spec { dietary_tags := some [1, 2] } 2
  exact (h.2.2.2.2.1).trans (by decide)

/-- C10 (counterexample): in the list `[5, 5]` the tag `5` is present and
is the last element, yet toggling `5` twice yields `[5]`, not the
original list — refuting the claimed characterization of when the double
toggle restores the list. -/
theorem double_toggle_last_cex :
    ((5 : Nat) ∈ [5, 5] ∧ ([5, 5] : List Nat).getLast? = some 5) ∧
    toggleTags (toggleTags [5, 5] 5) 5 ≠ [5, 5] := by decide

/-- C10 (amended): toggling a tag twice yields a list with the same
members as the original; it equals the original as a list exactly when
the tag is not in it, or occurs exactly once, as its last element; and
when the tag is present, the double toggle moves it (collapsing
duplicates) to the end of the list. -/
theorem double_toggle_spec (s : List Nat) (t : Nat) :
    (∀ x, x ∈ toggleTags (toggleTags s t) t ↔ x ∈ s) ∧
    (toggleTags (toggleTags s t) t = s ↔
      (t ∉ s ∨ (s.count t = 1 ∧ s.getLast? = some t))) ∧
    (t ∈ s → toggleTags (toggleTags s t) t = s.filter (fun id => id ≠ t) ++ [t]) := by
  refine ⟨?_, ?_, ?_⟩
  · intro x
    rw [double_toggle_eq]
    by_cases h : t ∈ s
    · rw [if_pos h]
      simp only [List.mem_append, List.mem_filter, decide_eq_true_eq, List.mem_singleton]
      constructor
      · rintro (⟨hx, _⟩ | rfl)
        · exact hx
        · exact h
      · intro hx
        by_cases hxt : x = t
        · exact Or.inr hxt
        · exact Or.inl ⟨hx, hxt⟩
    · rw [if_neg h]
  · rw [double_toggle_eq]
    by_cases h : t ∈ s
    · rw [if_pos h]
      constructor
      · intro he
        exact Or.inr (filter_concat_eq_iff.mp he)
      · rintro (hns | hcl)
        · exact absurd h hns
        · exact filter_concat_eq_iff.mpr hcl
    · rw [if_neg h]
      simp [h]
  · intro h
    rw [double_toggle_eq, if_pos h]

theorem double_toggle_spec_witness :
    toggleTags (toggleTags [1, 2] 1) 1 = [2, 1] := by
  have h := (double_toggle_spec [1, 2] 1).2.2 (by decide)
  exact h.trans (by decide)

/-- C1: from a quiescent controller with committed state `F`, a single
draft edit to `V` followed by the debounce delay elapsing with no further
events emits exactly one filter object — `F` with `search` replaced by
the trimmed draft, absent when the trimmed draft is empty — provided the
trimmed draft differs from the committed search value (absent read as
the empty string). -/
theorem debounce_single_edit_commits (F : MealFilters) (d V : String) (t tEnd : Nat)
    (hDiff : jsTrim V ≠ jsOr F.search "")
    (hElapse : t + debounceDelay ≤ tEnd) :
    (runTimed ⟨F, d, none⟩ [(t, UserAction.edit V)] tEnd).2 =
      [{ F with search := if jsTrim V = "" then none else some (jsTrim V) }] := by
  simp [runTimed, fireIfDue, applyAction, debounceBody, hElapse, hDiff]

theorem debounce_single_edit_commits_witness :
    (runTimed ⟨{}, "", none⟩ [(0, UserAction.edit " Pancakes ")] 300).2 =
      [{ search := some "Pancakes" }] := by
  have h := debounce_single_edit_commits {} "" " Pancakes " 0 300 (by decide) (by decide)
  exact h.trans (by decide)

theorem runTimed_edit_burst (F : MealFilters) (tL : Nat) (vL : String) :
    ∀ (rest : List (Nat × String)) (t : Nat) (v : String) (tEnd : Nat),
      EditsWithinWindow ((t, v) :: rest) →
      ((t, v) :: rest).getLast? = some (tL, vL) →
      tL + debounceDelay ≤ tEnd →
      runTimed ⟨F, v, some (t + debounceDelay)⟩
          (rest.map (fun p => (p.1, UserAction.edit p.2))) tEnd =
        (⟨F, vL, none⟩,
          match debounceBody F vL with
          | some f => [f]
          | none => []) := by
  intro rest
  induction rest with
  | nil =>
      intro t v tEnd _ hLast hEnd
      have h2 : (t, v) = (tL, vL) := by simpa using hLast
      injection h2 with ha hb
      subst ha
      subst hb
      simp [runTimed, fireIfDue, hEnd]
  | cons hd rest ih =>
      obtain ⟨t₂, v₂⟩ := hd
      intro t v tEnd hWin hLast hEnd
      obtain ⟨hlt, hWin₂⟩ := hWin
      rw [List.getLast?_cons_cons] at hLast
      have hnot : ¬ (t + debounceDelay ≤ t₂) := by omega
      have hrec := ih t₂ v₂ tEnd hWin₂ hLast hEnd
      simp [runTimed, fireIfDue, applyAction, hnot, hrec]

/-- C2 (counterexample): two edits inside the debounce window whose final
value trims back to the committed search value produce no emission at
all, refuting that every such burst yields exactly one emission. -/
theorem debounce_burst_cex :
    (100 < 0 + debounceDelay ∧ 100 + debounceDelay ≤ 400) ∧
    (runTimed ⟨{}, "", none⟩
        [(0, UserAction.edit "a"), (100, UserAction.edit "")] 400).2 = [] := by
  decide

/-- C2 (amended): for a burst of two or more draft edits, each arriving
strictly before the delay started by the previous one expires, at most
one emission results once the final edit's delay elapses, and it
reflects only the final draft value: exactly one emission — the
committed state with `search` replaced by the trimmed final draft
(absent if empty) — when the trimmed final draft differs from the
committed search value, and none otherwise; no emission ever carries an
intermediate value. -/
theorem debounce_burst_emits_final (F : MealFilters) (d : String)
    (t₁ t₂ tL tEnd : Nat) (v₁ v₂ vL : String) (rest : List (Nat × String))
    (hWin : EditsWithinWindow ((t₁, v₁) :: (t₂, v₂) :: rest))
    (hLast : ((t₁, v₁) :: (t₂, v₂) :: rest).getLast? = some (tL, vL))
    (hEnd : tL + debounceDelay ≤ tEnd) :
    (runTimed ⟨F, d, none⟩
        (((t₁, v₁) :: (t₂, v₂) :: rest).map (fun p => (p.1, UserAction.edit p.2))) tEnd).2 =
      (if jsTrim vL = jsOr F.search "" then []
       else [{ F with search := if jsTrim vL = "" then none else some (jsTrim vL) }]) := by
  have hb := runTimed_edit_burst F tL vL ((t₂, v₂) :: rest) t₁ v₁ tEnd hWin hLast hEnd
  have hstep : (runTimed ⟨F, d, none⟩
      (((t₁, v₁) :: (t₂, v₂) :: rest).map (fun p => (p.1, UserAction.edit p.2))) tEnd).2 =
      (runTimed ⟨F, v₁, some (t₁ + debounceDelay)⟩
        (((t₂, v₂) :: rest).map (fun p => (p.1, UserAction.edit p.2))) tEnd).2 := rfl
  rw [hstep, hb]
  by_cases hEq : jsTrim vL = jsOr F.search ""
  · simp [debounceBody, hEq]
  · simp [debounceBody, hEq]

theorem debounce_burst_emits_final_witness :
    (runTimed ⟨{}, "", none⟩
        [(0, UserAction.edit "a"), (100, UserAction.edit "b")] 400).2 =
      [{ search := some "b" }] := by
  have h := debounce_burst_emits_final {} "" 0 100 100 400 "a" "b" "b" []
    ⟨by decide, trivial⟩ (by decide) (by decide)
  exact h.trans (by decide)

/-- C3 (counterexample): when the committed search field changes
externally to the untrimmed value `" a "`, the reset overwrites the
draft with it, and once the debounce delay elapses — with no draft edit
at all — the controller emits `{search: "a"}`: the externally initiated
reset does trigger an emission. -/
theorem external_reset_emission_cex :
    (runTimed ⟨{}, "", none⟩
        [(0, UserAction.external { search := some " a " })] 300).2 =
      [{ search := some "a" }] ∧
    (runTimed ⟨{}, "", none⟩
        [(0, UserAction.external { search := some " a " })] 300).2 ≠ [] := by
  decide

/-- C3 (amended): whenever the committed search field changes externally
(including becoming absent), the draft is overwritten synchronously with
the new committed search value (empty string if absent), without waiting
for the debounce delay; and provided that value is already trimmed — as
is every value the controller itself commits, and in particular an
absent one — the reset triggers no emission. -/
theorem external_reset_immediate (F f : MealFilters) (d : String) (t tEnd : Nat)
    (hChanged : f.search ≠ F.search)
    (hTrimmed : jsTrim (jsOr f.search "") = jsOr f.search "")
    (hElapse : t + debounceDelay ≤ tEnd) :
    (applyAction ⟨F, d, none⟩ t (UserAction.external f)).localSearch = jsOr f.search "" ∧
    (applyAction ⟨F, d, none⟩ t (UserAction.external f)).filters = f ∧
    (runTimed ⟨F, d, none⟩ [(t, UserAction.external f)] tEnd).2 = [] := by
  refine ⟨by simp [applyAction, hChanged], rfl, ?_⟩
  simp [runTimed, fireIfDue, applyAction, hChanged, hElapse, debounceBody, hTrimmed]

theorem external_reset_immediate_witness :
    (applyAction ⟨{ search := some "x" }, "x", none⟩ 0
        (UserAction.external {})).localSearch = "" ∧
    (runTimed ⟨{ search := some "x" }, "x", none⟩
        [(0, UserAction.external {})] 300).2 = [] := by
  have h := external_reset_immediate { search := some "x" } {} "x" 0 300
    (by decide) (by decide) (by decide)
  exact ⟨h.1.trans (by decide), h.2.2⟩
